import Mathlib

/-!
Verification of the Binance funding-fee monitor (`binance_funding_monitor.py`).

The program's real arithmetic (Python `float`) is modelled exactly over `ℚ`;
Python exceptions raised while parsing a field are modelled by `Option`
(`none` means the corresponding `float(...)` / `int(...)` conversion raised,
so the row is skipped).  Network responses are modelled by oracle functions
passed explicitly to the embedded operations, and each embedded operation
records the calls it issues so that retry/pagination behaviour is observable.
-/

namespace FundingMonitor

/-- The `FundingSnapshot` dataclass (timestamps in abstract integer units). -/
structure FundingSnapshot where
  timestamp : ℤ
  realized_fee_window : ℚ
  realized_window_hours : ℚ
  estimated_next_fee : ℚ
  estimated_hourly_fee : ℚ
  total_abs_notional : ℚ
  weighted_rate_per_hour : ℚ
deriving DecidableEq, Repr

/-- The dictionary returned by `compute_metrics`, one field per key. -/
structure Metrics where
  count : ℚ
  total_realized : ℚ
  avg_hourly_realized : ℚ
  daily_fee : ℚ
  monthly_fee : ℚ
  yearly_fee : ℚ
  avg_weighted_rate_per_hour : ℚ
  daily_rate : ℚ
  monthly_rate : ℚ
  yearly_rate : ℚ
  avg_estimated_hourly_fee : ℚ
deriving DecidableEq, Repr

/-- The all-zero metrics dictionary returned by `compute_metrics` on `[]`. -/
def zeroMetrics : Metrics := ⟨0, 0, 0, 0, 0, 0, 0, 0, 0, 0, 0⟩

/-- Sum `sum(r.realized_fee_window for r in records)` from `compute_metrics`. -/
def totalRealized (records : List FundingSnapshot) : ℚ :=
  (records.map (fun r => r.realized_fee_window)).sum

/-- Sum `sum(r.realized_window_hours for r in records)` from `compute_metrics`. -/
def totalCoveredHours (records : List FundingSnapshot) : ℚ :=
  (records.map (fun r => r.realized_window_hours)).sum

/-- Sum `sum(r.total_abs_notional for r in records)` from `compute_metrics`. -/
def sumNotional (records : List FundingSnapshot) : ℚ :=
  (records.map (fun r => r.total_abs_notional)).sum

/-- Sum `sum(r.weighted_rate_per_hour * r.total_abs_notional for r in records)`. -/
def weightedRateNumerator (records : List FundingSnapshot) : ℚ :=
  (records.map (fun r => r.weighted_rate_per_hour * r.total_abs_notional)).sum

/-- Sum `sum(r.estimated_hourly_fee for r in records)` from `compute_metrics`. -/
def sumEstimatedHourly (records : List FundingSnapshot) : ℚ :=
  (records.map (fun r => r.estimated_hourly_fee)).sum

/-- The `compute_metrics` function (source lines 287-333): on an empty record
list every field is `0`; otherwise the averages are computed with their
denominators guarded (`total_covered_hours > 0`, `sum_notional > 0`,
`count > 0`), a non-positive denominator yielding `0`. -/
def computeMetrics (records : List FundingSnapshot) : Metrics :=
  if records = [] then zeroMetrics
  else
    let count : ℚ := records.length
    let total_realized := totalRealized records
    let total_covered_hours := totalCoveredHours records
    let avg_hourly_realized :=
      if 0 < total_covered_hours then total_realized / total_covered_hours else 0
    let sum_notional := sumNotional records
    let avg_weighted_rate_per_hour :=
      if 0 < sum_notional then weightedRateNumerator records / sum_notional else 0
    let avg_estimated_hourly_fee :=
      if 0 < count then sumEstimatedHourly records / count else 0
    { count := count
      total_realized := total_realized
      avg_hourly_realized := avg_hourly_realized
      daily_fee := avg_hourly_realized * 24
      monthly_fee := avg_hourly_realized * 24 * 30
      yearly_fee := avg_hourly_realized * 24 * 365
      avg_weighted_rate_per_hour := avg_weighted_rate_per_hour
      daily_rate := avg_weighted_rate_per_hour * 24
      monthly_rate := avg_weighted_rate_per_hour * 24 * 30
      yearly_rate := avg_weighted_rate_per_hour * 24 * 365
      avg_estimated_hourly_fee := avg_estimated_hourly_fee }

/-- A raw CSV row as seen by `load_records`: each field is `none` when the
corresponding `parse_datetime` / `float` conversion raises (or the key is
missing), in which case the row is skipped. -/
structure RawRecord where
  timestamp_utc : Option ℤ
  realized_fee_window : Option ℚ
  realized_window_hours : Option ℚ
  estimated_next_fee : Option ℚ
  estimated_hourly_fee : Option ℚ
  total_abs_notional : Option ℚ
  weighted_rate_per_hour : Option ℚ

/-- Parsing of one CSV row inside `load_records`'s `try` block: all seven
fields must parse, otherwise the row is dropped. -/
def parseRecord (row : RawRecord) : Option FundingSnapshot :=
  match row.timestamp_utc, row.realized_fee_window, row.realized_window_hours,
      row.estimated_next_fee, row.estimated_hourly_fee, row.total_abs_notional,
      row.weighted_rate_per_hour with
  | some ts, some realized, some window_h, some est_next, some est_hourly,
      some abs_notional, some rate_h =>
    some ⟨ts, realized, window_h, est_next, est_hourly, abs_notional, rate_h⟩
  | _, _, _, _, _, _, _ => none

/-- The `load_records` loop (source lines 251-284): unparseable rows are
dropped, rows with `realized_window_hours <= 0` are dropped, and when a start
time is given rows strictly before it are dropped. -/
def loadRecords (startTime : Option ℤ) : List RawRecord → List FundingSnapshot
  | [] => []
  | row :: rest =>
    match parseRecord row with
    | none => loadRecords startTime rest
    | some snap =>
      if snap.realized_window_hours ≤ 0 then loadRecords startTime rest
      else
        match startTime with
        | some st =>
          if snap.timestamp < st then loadRecords startTime rest
          else snap :: loadRecords startTime rest
        | none => snap :: loadRecords startTime rest

/-- A row of the `positionRisk` response as consumed by `collect_snapshot`:
`positionAmt` / `markPrice` are `none` when `float(...)` raises (a missing key
defaults to `0` and parses as `some 0`); `symbol` is `none` when absent. -/
structure PosRow where
  positionAmt : Option ℚ
  markPrice : Option ℚ
  symbol : Option String

/-- Accumulator variables of `collect_snapshot`'s position loop (source lines
167-170), named as in the source. -/
structure PosAcc where
  total_abs_notional : ℚ
  weighted_rate_hourly_sum : ℚ
  estimated_next_fee : ℚ
  estimated_hourly_fee : ℚ
deriving DecidableEq, Repr

/-- The skip logic of `collect_snapshot`'s position loop (source lines
172-189): skip on an unparseable amount or mark price, on `amt == 0` or
`mark_price == 0`, and on a missing or empty symbol; otherwise look up the
rate (default `0.0`) and the interval hours (default `8`, re-coerced to `8`
when non-positive) and return `(rate, interval_h, notional)`. -/
def posParse (rates : String → Option ℚ) (intervals : String → Option ℤ)
    (row : PosRow) : Option (ℚ × ℚ × ℚ) :=
  match row.positionAmt, row.markPrice with
  | some amt, some mark_price =>
    if amt = 0 ∨ mark_price = 0 then none
    else
      match row.symbol with
      | none => none
      | some s =>
        if s = "" then none
        else
          let rate := (rates s).getD 0
          let interval_h : ℚ := (((intervals s).getD 8 : ℤ) : ℚ)
          let interval_h := if interval_h ≤ 0 then 8 else interval_h
          some (rate, interval_h, amt * mark_price)
  | _, _ => none

/-- One iteration of `collect_snapshot`'s position loop (source lines
172-199): a skipped row leaves the accumulators unchanged, a contributing row
adds `notional * rate`, `(notional * rate) / interval_h`, `abs_notional` and
`(rate / interval_h) * abs_notional` to the four accumulators. -/
def posStep (rates : String → Option ℚ) (intervals : String → Option ℤ)
    (acc : PosAcc) (row : PosRow) : PosAcc :=
  match posParse rates intervals row with
  | none => acc
  | some (rate, interval_h, notional) =>
    { total_abs_notional := acc.total_abs_notional + |notional|
      weighted_rate_hourly_sum :=
        acc.weighted_rate_hourly_sum + (rate / interval_h) * |notional|
      estimated_next_fee := acc.estimated_next_fee + notional * rate
      estimated_hourly_fee := acc.estimated_hourly_fee + (notional * rate) / interval_h }

/-- The whole position loop of `collect_snapshot`, starting from all-zero
accumulators. -/
def posFold (rates : String → Option ℚ) (intervals : String → Option ℤ)
    (positions : List PosRow) : PosAcc :=
  positions.foldl (posStep rates intervals) ⟨0, 0, 0, 0⟩

/-- Contribution of a single position row to the four accumulators (zero for
a skipped row). -/
def posDelta (rates : String → Option ℚ) (intervals : String → Option ℤ)
    (row : PosRow) : PosAcc :=
  posStep rates intervals ⟨0, 0, 0, 0⟩ row

/-- The per-instrument `(rate / interval_hours, abs_notional)` pairs of the
contributing (non-skipped) positions. -/
def contribPairs (rates : String → Option ℚ) (intervals : String → Option ℤ)
    (positions : List PosRow) : List (ℚ × ℚ) :=
  positions.filterMap (fun row =>
    (posParse rates intervals row).map (fun p => (p.1 / p.2.1, |p.2.2|)))

/-- The exposure part of a `collect_snapshot` result (source lines 162-218):
the folded accumulators plus `weighted_rate_per_hour`, which is
`weighted_rate_hourly_sum / total_abs_notional` when `total_abs_notional > 0`
and `0.0` otherwise. -/
structure Exposure where
  total_abs_notional : ℚ
  weighted_rate_per_hour : ℚ
  estimated_next_fee : ℚ
  estimated_hourly_fee : ℚ
deriving DecidableEq, Repr

/-- The exposure computation of `collect_snapshot` (source lines 167-203). -/
def collectExposure (rates : String → Option ℚ) (intervals : String → Option ℤ)
    (positions : List PosRow) : Exposure :=
  let a := posFold rates intervals positions
  { total_abs_notional := a.total_abs_notional
    weighted_rate_per_hour :=
      if 0 < a.total_abs_notional then a.weighted_rate_hourly_sum / a.total_abs_notional
      else 0
    estimated_next_fee := a.estimated_next_fee
    estimated_hourly_fee := a.estimated_hourly_fee }

/-- Modelled from the spec: the source file in `src/` is one variant of the
repository and contains no account-equity fetch and no leverage field; the
spec's `ExposureSnapshot` defines `leverage = total_abs_notional /
account_equity` with `leverage = 0` when `account_equity ≤ 0`. -/
def leverage (total_abs_notional account_equity : ℚ) : ℚ :=
  if account_equity ≤ 0 then 0 else total_abs_notional / account_equity

/-- Error outcomes of a signed request as seen by the caller: the server's
timestamp/signature rejection, any other HTTP error, or a transport failure.
All of them propagate out of `_signed_request` unchanged. -/
inductive ServerError where
  | timestampRejected
  | httpError (code : ℤ)
  | networkFailure
deriving DecidableEq, Repr

/-- One HTTP call issued by `_signed_request` (source lines 45-58): the path,
the caller's parameters, and the stamped `timestamp` / `recvWindow` query
fields.  URL-encoding, the HMAC signature and JSON decoding are abstracted
into the server oracle. -/
structure SignedCall where
  path : String
  queryParams : List (String × ℤ)
  timestampMs : ℤ
  recvWindow : ℤ
deriving DecidableEq, Repr

/-- The `_signed_request` method (source lines 45-58): it stamps the request
with the local clock (`datetime.now`, no drift offset) and the configured
`recvWindow`, issues exactly one call, and returns the server's answer —
there is no `try`/`except`, no clock resync and no retry, so every error
propagates unchanged.  The first component is the list of calls issued. -/
def signedRequest {α : Type} (clockMs recvWindow : ℤ) (path : String)
    (params : List (String × ℤ)) (server : SignedCall → Except ServerError α) :
    List SignedCall × Except ServerError α :=
  let call : SignedCall :=
    { path := path, queryParams := params, timestampMs := clockMs, recvWindow := recvWindow }
  ([call], server call)

/-- A row of an income-history page: `some (income, time)` when both
`float(item["income"])` and `int(item["time"])` parse, `none` when either
conversion raises (the row is then skipped). -/
abbrev IncomeRow := Option (ℚ × ℤ)

/-- The inner row loop of `get_funding_income_sum` (source lines 125-133):
starting from the running `(total, last_time)` it adds each parseable row's
income to `total` and maxes its time into `last_time`. -/
def pageFold (acc : ℚ × ℤ) (rows : List IncomeRow) : ℚ × ℤ :=
  rows.foldl
    (fun a r =>
      match r with
      | none => a
      | some q => (a.1 + q.1, max a.2 q.2))
    acc

/-- The running `last_time` of a page fold never drops below its initial
value (it is only ever maxed with row times). -/
theorem pageFold_snd_le (rows : List IncomeRow) :
    ∀ acc : ℚ × ℤ, acc.2 ≤ (pageFold acc rows).2 := by
  induction rows with
  | nil => intro acc; simp [pageFold]
  | cons r rest ih =>
    intro acc
    cases r with
    | none => simpa [pageFold, List.foldl] using ih acc
    | some q =>
      have h2 := ih (acc.1 + q.1, max acc.2 q.2)
      have h3 : acc.2 ≤ max acc.2 q.2 := le_max_left _ _
      simp only [pageFold, List.foldl] at h2 ⊢
      exact le_trans h3 h2

/-- Observable result of a `get_funding_income_sum` run: the returned total,
the final value of the working cursor `page_start`, the log of
`(startTime, endTime)` fetch calls issued, and all rows fetched. -/
structure IncomeRun where
  total : ℚ
  cursor : ℤ
  callLog : List (ℤ × ℤ)
  rowsFetched : List IncomeRow
deriving DecidableEq, Repr

/-- The `while` loop of `get_funding_income_sum` (source lines 106-139),
parameterized by a fetch oracle (`none` models a non-list response).  While
`page_start < end_ms` it fetches `(startTime=page_start, endTime=end_ms,
limit=1000)`; a non-list or empty page stops the loop; otherwise the page is
folded into the totals, a page of fewer than 1000 rows stops the loop (with
`page_start` not advanced), and after a full page `page_start` becomes
`last_time + 1`. -/
def incomeLoop (oracle : ℤ → Option (List IncomeRow)) (end_ms : ℤ)
    (page_start : ℤ) (total : ℚ) (callLog : List (ℤ × ℤ))
    (rowsAcc : List IncomeRow) : IncomeRun :=
  if h : page_start < end_ms then
    match oracle page_start with
    | none => ⟨total, page_start, callLog ++ [(page_start, end_ms)], rowsAcc⟩
    | some data =>
      if data = [] then ⟨total, page_start, callLog ++ [(page_start, end_ms)], rowsAcc⟩
      else
        let p := pageFold (total, page_start) data
        if data.length < 1000 then
          ⟨p.1, page_start, callLog ++ [(page_start, end_ms)], rowsAcc ++ data⟩
        else
          incomeLoop oracle end_ms (p.2 + 1) p.1
            (callLog ++ [(page_start, end_ms)]) (rowsAcc ++ data)
  else ⟨total, page_start, callLog, rowsAcc⟩
termination_by (end_ms - page_start).toNat
decreasing_by
  simp_wf
  have h1 : page_start ≤ (pageFold (total, page_start) data).2 :=
    pageFold_snd_le data (total, page_start)
  omega

/-- The `get_funding_income_sum` method itself: run the pagination loop from
`start_ms` with zero total and return the accumulated total. -/
def getFundingIncomeSum (oracle : ℤ → Option (List IncomeRow))
    (start_ms end_ms : ℤ) : ℚ :=
  (incomeLoop oracle end_ms start_ms 0 [] []).total

/-- Modelled from the spec: the source variant in `src/` sums only the net
income; the spec's IncomeReconciler additionally keeps
`received = Σ income where income ≥ 0` and `paid = Σ (-income) where
income < 0` over the fetched rows. -/
def rpSums (rows : List IncomeRow) : ℚ × ℚ :=
  rows.foldl
    (fun a r =>
      match r with
      | none => a
      | some q =>
        (if 0 ≤ q.1 then a.1 + q.1 else a.1, if q.1 < 0 then a.2 + (-q.1) else a.2))
    (0, 0)

/-- A rate map holding one instrument, used for concrete scenarios. -/
def demoRates : String → Option ℚ := fun s => if s = "BTCUSDT" then some 0.0004 else none

/-- An interval map holding one instrument at 8 hours. -/
def demoIntervals : String → Option ℤ := fun s => if s = "BTCUSDT" then some 8 else none

/-- A position of amount 10 at mark price 100. -/
def demoPosition : PosRow := ⟨some 10, some 100, some "BTCUSDT"⟩

/-- A server that rejects every signed call with a timestamp error. -/
def rejectingServer : SignedCall → Except ServerError Unit :=
  fun _ => .error .timestampRejected

/-- A full income page: 1000 rows, each with income 0 at time 10. -/
def demoPage1 : List IncomeRow := List.replicate 1000 (some ((0 : ℚ), (10 : ℤ)))

/-- A short income page: 3 rows at times 20, 21, 22. -/
def demoPage2 : List IncomeRow := [some (1, 20), some (2, 21), some (3, 22)]

/-- An income oracle serving the full page at cursor 0 and the short page at
every other cursor. -/
def demoIncomeOracle : ℤ → Option (List IncomeRow) := fun s =>
  if s = 0 then some demoPage1 else some demoPage2

/-- An income oracle reporting no events anywhere. -/
def emptyOracle : ℤ → Option (List IncomeRow) := fun _ => some []

/-- A fully parseable CSV row with window hours 2 and realized fee 3. -/
def demoRawRecord : RawRecord := ⟨some 0, some 3, some 2, some 0, some 0, some 0, some 0⟩

/-- The guarded average of `compute_metrics` equals the ratio of the sums
once the record list is non-empty and the covered hours are positive. -/
theorem computeMetrics_avg_eq (records : List FundingSnapshot) (hne : records ≠ [])
    (hpos : 0 < totalCoveredHours records) :
    (computeMetrics records).avg_hourly_realized
      = totalRealized records / totalCoveredHours records := by
  simp [computeMetrics, hne, hpos]

/-- Every record kept by the `load_records` loop has positive window hours. -/
theorem loadRecords_window_pos (startTime : Option ℤ) :
    ∀ (rows : List RawRecord) (r : FundingSnapshot),
      r ∈ loadRecords startTime rows → 0 < r.realized_window_hours := by
  intro rows
  induction rows with
  | nil => intro r hr; simp [loadRecords] at hr
  | cons row rest ih =>
    intro r hr
    simp only [loadRecords] at hr
    rcases hp : parseRecord row with _ | snap
    · rw [hp] at hr; exact ih r hr
    · rw [hp] at hr
      simp only at hr
      by_cases hw : snap.realized_window_hours ≤ 0
      · rw [if_pos hw] at hr; exact ih r hr
      · rw [if_neg hw] at hr
        push_neg at hw
        cases startTime with
        | none =>
          simp only at hr
          rcases List.mem_cons.mp hr with h | h
          · rw [h]; exact hw
          · exact ih r h
        | some st =>
          simp only at hr
          by_cases hts : snap.timestamp < st
          · rw [if_pos hts] at hr; exact ih r hr
          · rw [if_neg hts] at hr
            rcases List.mem_cons.mp hr with h | h
            · rw [h]; exact hw
            · exact ih r h

/-- A non-empty record list whose window hours are all positive has positive
covered-hours sum. -/
theorem totalCoveredHours_pos_of (l : List FundingSnapshot) (hne : l ≠ [])
    (h : ∀ r ∈ l, 0 < r.realized_window_hours) : 0 < totalCoveredHours l := by
  cases l with
  | nil => exact absurd rfl hne
  | cons a rest =>
    have ha := h a (List.mem_cons_self a rest)
    have hrest : 0 ≤ (rest.map (fun r => r.realized_window_hours)).sum :=
      List.sum_nonneg (by
        intro x hx
        rcases List.mem_map.mp hx with ⟨r, hr, rfl⟩
        exact (h r (List.mem_cons_of_mem a hr)).le)
    simp only [totalCoveredHours, List.map_cons, List.sum_cons]
    linarith

/-- C8: `compute_metrics` on the empty record set returns every numeric field
equal to exactly 0, and every division in it is guarded: a non-positive
denominator (covered hours, notional sum, or count) yields exactly 0. -/
theorem compute_metrics_empty_and_guarded :
    computeMetrics [] = zeroMetrics ∧
    ∀ records : List FundingSnapshot,
      (totalCoveredHours records ≤ 0 →
        (computeMetrics records).avg_hourly_realized = 0 ∧
        (computeMetrics records).daily_fee = 0 ∧
        (computeMetrics records).monthly_fee = 0 ∧
        (computeMetrics records).yearly_fee = 0) ∧
      (sumNotional records ≤ 0 →
        (computeMetrics records).avg_weighted_rate_per_hour = 0 ∧
        (computeMetrics records).daily_rate = 0 ∧
        (computeMetrics records).monthly_rate = 0 ∧
        (computeMetrics records).yearly_rate = 0) ∧
      ((records.length : ℚ) ≤ 0 → (computeMetrics records).avg_estimated_hourly_fee = 0) := by
  refine ⟨rfl, ?_⟩
  intro records
  by_cases hrec : records = []
  · subst hrec
    exact ⟨fun _ => ⟨rfl, rfl, rfl, rfl⟩, fun _ => ⟨rfl, rfl, rfl, rfl⟩, fun _ => rfl⟩
  · refine ⟨fun h => ?_, fun h => ?_, fun h => ?_⟩
    · have hx : ¬ (0 < totalCoveredHours records) := not_lt.mpr h
      simp [computeMetrics, hrec, hx]
    · have hx : ¬ (0 < sumNotional records) := not_lt.mpr h
      simp [computeMetrics, hrec, hx]
    · have hx : ¬ (0 < (records.length : ℚ)) := not_lt.mpr h
      simp [computeMetrics, hrec, hx]

/-- Witness for `compute_metrics_empty_and_guarded`: a one-record list with
zero window hours and zero notional exercises the covered-hours and notional
guards, and the empty list exercises the count guard. -/
theorem compute_metrics_empty_and_guarded_witness :
    (computeMetrics [⟨0, 1, 0, 0, 0, 0, 0⟩]).avg_hourly_realized = 0 ∧
    (computeMetrics [⟨0, 1, 0, 0, 0, 0, 0⟩]).avg_weighted_rate_per_hour = 0 ∧
    (computeMetrics []).avg_estimated_hourly_fee = 0 := by
  have h := compute_metrics_empty_and_guarded.2 [⟨0, 1, 0, 0, 0, 0, 0⟩]
  have h0 := compute_metrics_empty_and_guarded.2 []
  exact ⟨(h.1 (by norm_num [totalCoveredHours])).1,
    (h.2.1 (by norm_num [sumNotional])).1, h0.2.2 (by norm_num)⟩

/-- C9: for every non-empty record set with positive covered hours, the
hourly average is total realized over total covered hours and the daily,
monthly and yearly projections are hourly*24, hourly*24*30 and hourly*24*365;
a single record with realized `n` over `hrs` hours yields hourly average
`n / hrs` exactly, hence within the 1e-9 tolerance. -/
theorem compute_metrics_fee_relations :
    (∀ records : List FundingSnapshot, records ≠ [] → 0 < totalCoveredHours records →
      (computeMetrics records).avg_hourly_realized
          = totalRealized records / totalCoveredHours records ∧
      (computeMetrics records).daily_fee = (computeMetrics records).avg_hourly_realized * 24 ∧
      (computeMetrics records).monthly_fee
          = (computeMetrics records).avg_hourly_realized * 24 * 30 ∧
      (computeMetrics records).yearly_fee
          = (computeMetrics records).avg_hourly_realized * 24 * 365) ∧
    (∀ (n hrs : ℚ) (ts : ℤ) (e1 e2 e3 e4 : ℚ), 0 < hrs →
      (computeMetrics [⟨ts, n, hrs, e1, e2, e3, e4⟩]).avg_hourly_realized = n / hrs ∧
      |(computeMetrics [⟨ts, n, hrs, e1, e2, e3, e4⟩]).avg_hourly_realized - n / hrs|
        ≤ 1 / 1000000000) := by
  constructor
  · intro records hne hpos
    refine ⟨computeMetrics_avg_eq records hne hpos, ?_, ?_, ?_⟩ <;>
      simp [computeMetrics, hne]
  · intro n hrs ts e1 e2 e3 e4 hh
    have h1 : (computeMetrics [⟨ts, n, hrs, e1, e2, e3, e4⟩]).avg_hourly_realized = n / hrs := by
      have hne : ([⟨ts, n, hrs, e1, e2, e3, e4⟩] : List FundingSnapshot) ≠ [] := by simp
      have hpos : 0 < totalCoveredHours [⟨ts, n, hrs, e1, e2, e3, e4⟩] := by
        simpa [totalCoveredHours] using hh
      rw [computeMetrics_avg_eq _ hne hpos]
      simp [totalRealized, totalCoveredHours]
    refine ⟨h1, ?_⟩
    rw [h1, sub_self, abs_zero]
    norm_num

/-- Witness for `compute_metrics_fee_relations` at a single record with
realized 3 over 2 hours. -/
theorem compute_metrics_fee_relations_witness :
    (computeMetrics [⟨0, 3, 2, 0, 0, 0, 0⟩]).avg_hourly_realized = 3 / 2 ∧
    (computeMetrics [⟨0, 3, 2, 0, 0, 0, 0⟩]).daily_fee
      = (computeMetrics [⟨0, 3, 2, 0, 0, 0, 0⟩]).avg_hourly_realized * 24 := by
  refine ⟨(compute_metrics_fee_relations.2 3 2 0 0 0 0 0 (by norm_num)).1, ?_⟩
  exact (compute_metrics_fee_relations.1 [⟨0, 3, 2, 0, 0, 0, 0⟩] (by simp)
    (by norm_num [totalCoveredHours])).2.1

/-- C10: every record returned by `load_records` has strictly positive
`realized_window_hours` (rows with non-positive window hours or unparseable
fields are dropped), so for every non-empty loaded list the covered-hours
denominator used by `compute_metrics` is strictly positive and the guarded
division is actually taken. -/
theorem load_records_covered_hours_pos :
    (∀ (startTime : Option ℤ) (rows : List RawRecord) (r : FundingSnapshot),
        r ∈ loadRecords startTime rows → 0 < r.realized_window_hours) ∧
    (∀ (startTime : Option ℤ) (rows : List RawRecord),
        loadRecords startTime rows ≠ [] →
        0 < totalCoveredHours (loadRecords startTime rows) ∧
        (computeMetrics (loadRecords startTime rows)).avg_hourly_realized
          = totalRealized (loadRecords startTime rows)
              / totalCoveredHours (loadRecords startTime rows)) := by
  refine ⟨fun startTime rows => loadRecords_window_pos startTime rows, ?_⟩
  intro startTime rows hne
  have hpos : 0 < totalCoveredHours (loadRecords startTime rows) :=
    totalCoveredHours_pos_of _ hne (fun r hr => loadRecords_window_pos startTime rows r hr)
  exact ⟨hpos, computeMetrics_avg_eq _ hne hpos⟩

/-- Witness for `load_records_covered_hours_pos` at a concrete CSV row list. -/
theorem load_records_covered_hours_pos_witness :
    0 < ((⟨0, 3, 2, 0, 0, 0, 0⟩ : FundingSnapshot)).realized_window_hours ∧
    0 < totalCoveredHours (loadRecords none [demoRawRecord]) := by
  have hload : loadRecords none [demoRawRecord] = [⟨0, 3, 2, 0, 0, 0, 0⟩] := by
    norm_num [loadRecords, demoRawRecord, parseRecord]
  constructor
  · exact load_records_covered_hours_pos.1 none [demoRawRecord] _
      (by rw [hload]; exact List.mem_singleton.mpr rfl)
  · exact (load_records_covered_hours_pos.2 none [demoRawRecord] (by rw [hload]; simp)).1

/-- Any of the source's skip conditions makes `posParse` return `none`. -/
theorem posParse_skip (rates : String → Option ℚ) (intervals : String → Option ℤ)
    (row : PosRow)
    (h : row.positionAmt = none ∨ row.markPrice = none ∨ row.positionAmt = some 0 ∨
      row.markPrice = some 0 ∨ row.symbol = none ∨ row.symbol = some "") :
    posParse rates intervals row = none := by
  rcases row with ⟨amt, mark, sym⟩
  simp only at h
  rcases h with h | h | h | h | h | h
  · subst h; rcases mark with _ | m <;> simp [posParse]
  · subst h; rcases amt with _ | a <;> simp [posParse]
  · subst h; rcases mark with _ | m <;> simp [posParse]
  · subst h; rcases amt with _ | a <;> simp [posParse]
  · subst h; rcases amt with _ | a <;> rcases mark with _ | m <;> simp [posParse]
  · subst h; rcases amt with _ | a <;> rcases mark with _ | m <;> simp [posParse]

/-- A contributing position has non-zero notional (its amount and mark price
are both non-zero). -/
theorem posParse_notional_ne_zero (rates : String → Option ℚ)
    (intervals : String → Option ℤ) (row : PosRow) (rate interval_h notional : ℚ)
    (h : posParse rates intervals row = some (rate, interval_h, notional)) :
    notional ≠ 0 := by
  rcases row with ⟨amt, mark, sym⟩
  rcases amt with _ | a
  · simp [posParse] at h
  rcases mark with _ | m
  · simp [posParse] at h
  by_cases hz : a = 0 ∨ m = 0
  · simp [posParse, hz] at h
  rcases sym with _ | s
  · simp [posParse, hz] at h
  by_cases hs : s = ""
  · simp [posParse, hz, hs] at h
  push_neg at hz
  simp [posParse, hz.1, hz.2, hs] at h
  rw [← h.2.2]
  exact mul_ne_zero hz.1 hz.2

/-- The fold of the position loop accumulates exactly the sums of the
per-position contributions (stated for the two fields the weighted rate
uses). -/
theorem posFold_sums (rates : String → Option ℚ) (intervals : String → Option ℤ) :
    ∀ (positions : List PosRow) (acc : PosAcc),
      (positions.foldl (posStep rates intervals) acc).total_abs_notional
        = acc.total_abs_notional
          + ((contribPairs rates intervals positions).map Prod.snd).sum ∧
      (positions.foldl (posStep rates intervals) acc).weighted_rate_hourly_sum
        = acc.weighted_rate_hourly_sum
          + ((contribPairs rates intervals positions).map (fun p => p.1 * p.2)).sum := by
  intro positions
  induction positions with
  | nil => intro acc; simp [contribPairs]
  | cons row rest ih =>
    intro acc
    rcases hp : posParse rates intervals row with _ | q
    · have hstep : posStep rates intervals acc row = acc := by simp [posStep, hp]
      have hc : contribPairs rates intervals (row :: rest)
          = contribPairs rates intervals rest := by
        simp [contribPairs, hp]
      simp only [List.foldl_cons, hstep, hc]
      exact ih acc
    · obtain ⟨rate, interval_h, notional⟩ := q
      have hstep : posStep rates intervals acc row
          = ⟨acc.total_abs_notional + |notional|,
             acc.weighted_rate_hourly_sum + (rate / interval_h) * |notional|,
             acc.estimated_next_fee + notional * rate,
             acc.estimated_hourly_fee + (notional * rate) / interval_h⟩ := by
        simp [posStep, hp]
      have hc : contribPairs rates intervals (row :: rest)
          = (rate / interval_h, |notional|) :: contribPairs rates intervals rest := by
        simp [contribPairs, hp]
      simp only [List.foldl_cons, hstep, hc, List.map_cons, List.sum_cons]
      have h2 := ih ⟨acc.total_abs_notional + |notional|,
        acc.weighted_rate_hourly_sum + (rate / interval_h) * |notional|,
        acc.estimated_next_fee + notional * rate,
        acc.estimated_hourly_fee + (notional * rate) / interval_h⟩
      refine ⟨?_, ?_⟩
      · rw [h2.1]; ring
      · rw [h2.2]; ring

/-- The weight of every contributing pair is strictly positive. -/
theorem contribPairs_snd_pos (rates : String → Option ℚ) (intervals : String → Option ℤ)
    (positions : List PosRow) :
    ∀ p ∈ contribPairs rates intervals positions, 0 < p.2 := by
  intro p hp
  rcases List.mem_filterMap.mp hp with ⟨row, hrow, hmap⟩
  rcases hq : posParse rates intervals row with _ | q
  · rw [hq] at hmap; simp at hmap
  · rw [hq] at hmap
    simp only [Option.map_some', Option.some.injEq] at hmap
    obtain ⟨rate, interval_h, notional⟩ := q
    have hn : notional ≠ 0 :=
      posParse_notional_ne_zero rates intervals row rate interval_h notional hq
    rw [← hmap]
    exact abs_pos.mpr hn

/-- A lower bound on all first components bounds the weighted sum from
below. -/
theorem weighted_sum_le (l : List (ℚ × ℚ)) (b : ℚ) :
    (∀ p ∈ l, 0 ≤ p.2) → (∀ p ∈ l, b ≤ p.1) →
    b * (l.map Prod.snd).sum ≤ (l.map (fun p => p.1 * p.2)).sum := by
  induction l with
  | nil => intro _ _; simp
  | cons p rest ih =>
    intro hw hb
    have h1 : b ≤ p.1 := hb p (List.mem_cons_self _ _)
    have h2 : 0 ≤ p.2 := hw p (List.mem_cons_self _ _)
    have h3 := ih (fun q hq => hw q (List.mem_cons_of_mem _ hq))
      (fun q hq => hb q (List.mem_cons_of_mem _ hq))
    simp only [List.map_cons, List.sum_cons, mul_add]
    exact add_le_add (mul_le_mul_of_nonneg_right h1 h2) h3

/-- An upper bound on all first components bounds the weighted sum from
above. -/
theorem weighted_sum_ge (l : List (ℚ × ℚ)) (b : ℚ) :
    (∀ p ∈ l, 0 ≤ p.2) → (∀ p ∈ l, p.1 ≤ b) →
    (l.map (fun p => p.1 * p.2)).sum ≤ b * (l.map Prod.snd).sum := by
  induction l with
  | nil => intro _ _; simp
  | cons p rest ih =>
    intro hw hb
    have h1 : p.1 ≤ b := hb p (List.mem_cons_self _ _)
    have h2 : 0 ≤ p.2 := hw p (List.mem_cons_self _ _)
    have h3 := ih (fun q hq => hw q (List.mem_cons_of_mem _ hq))
      (fun q hq => hb q (List.mem_cons_of_mem _ hq))
    simp only [List.map_cons, List.sum_cons, mul_add]
    exact add_le_add (mul_le_mul_of_nonneg_right h1 h2) h3

/-- A strict lower bound on all first components bounds the weighted sum
strictly when the total weight is positive. -/
theorem weighted_sum_lt (l : List (ℚ × ℚ)) (b : ℚ) :
    (∀ p ∈ l, 0 ≤ p.2) → (∀ p ∈ l, b < p.1) → 0 < (l.map Prod.snd).sum →
    b * (l.map Prod.snd).sum < (l.map (fun p => p.1 * p.2)).sum := by
  induction l with
  | nil => intro _ _ hs; simp at hs
  | cons p rest ih =>
    intro hw hb hs
    have h1 : b < p.1 := hb p (List.mem_cons_self _ _)
    have h2 : 0 ≤ p.2 := hw p (List.mem_cons_self _ _)
    have hwrest : ∀ q ∈ rest, 0 ≤ q.2 := fun q hq => hw q (List.mem_cons_of_mem _ hq)
    have hbrest : ∀ q ∈ rest, b < q.1 := fun q hq => hb q (List.mem_cons_of_mem _ hq)
    simp only [List.map_cons, List.sum_cons, mul_add] at hs ⊢
    rcases lt_or_le 0 ((rest.map Prod.snd).sum) with hT | hT
    · exact add_lt_add_of_le_of_lt (mul_le_mul_of_nonneg_right h1.le h2) (ih hwrest hbrest hT)
    · have hT0 : (rest.map Prod.snd).sum = 0 := le_antisymm hT (List.sum_nonneg (by
        intro x hx
        rcases List.mem_map.mp hx with ⟨q, hq, rfl⟩
        exact hwrest q hq))
      have hp2 : 0 < p.2 := by rw [hT0] at hs; linarith
      have h6 := weighted_sum_le rest b hwrest (fun q hq => (hbrest q hq).le)
      exact add_lt_add_of_lt_of_le (mul_lt_mul_of_pos_right h1 hp2) h6

/-- A strict upper bound on all first components bounds the weighted sum
strictly when the total weight is positive. -/
theorem weighted_sum_gt (l : List (ℚ × ℚ)) (b : ℚ) :
    (∀ p ∈ l, 0 ≤ p.2) → (∀ p ∈ l, p.1 < b) → 0 < (l.map Prod.snd).sum →
    (l.map (fun p => p.1 * p.2)).sum < b * (l.map Prod.snd).sum := by
  induction l with
  | nil => intro _ _ hs; simp at hs
  | cons p rest ih =>
    intro hw hb hs
    have h1 : p.1 < b := hb p (List.mem_cons_self _ _)
    have h2 : 0 ≤ p.2 := hw p (List.mem_cons_self _ _)
    have hwrest : ∀ q ∈ rest, 0 ≤ q.2 := fun q hq => hw q (List.mem_cons_of_mem _ hq)
    have hbrest : ∀ q ∈ rest, q.1 < b := fun q hq => hb q (List.mem_cons_of_mem _ hq)
    simp only [List.map_cons, List.sum_cons, mul_add] at hs ⊢
    rcases lt_or_le 0 ((rest.map Prod.snd).sum) with hT | hT
    · exact add_lt_add_of_le_of_lt (mul_le_mul_of_nonneg_right h1.le h2) (ih hwrest hbrest hT)
    · have hT0 : (rest.map Prod.snd).sum = 0 := le_antisymm hT (List.sum_nonneg (by
        intro x hx
        rcases List.mem_map.mp hx with ⟨q, hq, rfl⟩
        exact hwrest q hq))
      have hp2 : 0 < p.2 := by rw [hT0] at hs; linarith
      have h6 := weighted_sum_ge rest b hwrest (fun q hq => (hbrest q hq).le)
      exact add_lt_add_of_lt_of_le (mul_lt_mul_of_pos_right h1 hp2) h6

/-- The weighted average of the first components with nonnegative weights of
positive total lies between some member below it and some member above it
(membership in the convex hull of the finite value set). -/
theorem wavg_mem_hull (l : List (ℚ × ℚ)) (hw : ∀ p ∈ l, 0 ≤ p.2)
    (hs : 0 < (l.map Prod.snd).sum) :
    (∃ lo ∈ l.map Prod.fst,
        lo ≤ (l.map (fun p => p.1 * p.2)).sum / (l.map Prod.snd).sum) ∧
    (∃ hi ∈ l.map Prod.fst,
        (l.map (fun p => p.1 * p.2)).sum / (l.map Prod.snd).sum ≤ hi) := by
  have hTne : (l.map Prod.snd).sum ≠ 0 := ne_of_gt hs
  constructor
  · by_contra hcon
    push_neg at hcon
    have hb : ∀ p ∈ l,
        (l.map (fun p => p.1 * p.2)).sum / (l.map Prod.snd).sum < p.1 := by
      intro p hp
      exact hcon p.1 (List.mem_map.mpr ⟨p, hp, rfl⟩)
    have hx := weighted_sum_lt l _ hw hb hs
    rw [div_mul_cancel₀ _ hTne] at hx
    exact lt_irrefl _ hx
  · by_contra hcon
    push_neg at hcon
    have hb : ∀ p ∈ l,
        p.1 < (l.map (fun p => p.1 * p.2)).sum / (l.map Prod.snd).sum := by
      intro p hp
      exact hcon p.1 (List.mem_map.mpr ⟨p, hp, rfl⟩)
    have hx := weighted_sum_gt l _ hw hb hs
    rw [div_mul_cancel₀ _ hTne] at hx
    exact lt_irrefl _ hx

/-- C2 (amended): a position with a zero or unparseable amount or mark price,
or a missing or empty symbol, contributes exactly 0 to all accumulated sums;
every other position adds `|notional|` to total_abs_notional,
`(rate/interval_h)*|notional|` to the weighted-rate numerator,
`notional*rate` to estimated_next_fee and `(notional*rate)/interval_h` to
estimated_hourly_fee; in particular the scenario position (amount 10, mark
100, rate 0.0004, interval 8h) contributes 0.4, 0.05, 1000 and 0.05 (the
estimated_hourly_fee contribution is 0.05, not 0.00005). -/
theorem position_contribution :
    (∀ (rates : String → Option ℚ) (intervals : String → Option ℤ)
        (acc : PosAcc) (row : PosRow),
      row.positionAmt = none ∨ row.markPrice = none ∨ row.positionAmt = some 0 ∨
        row.markPrice = some 0 ∨ row.symbol = none ∨ row.symbol = some "" →
      posStep rates intervals acc row = acc) ∧
    (∀ (rates : String → Option ℚ) (intervals : String → Option ℤ)
        (acc : PosAcc) (row : PosRow) (rate interval_h notional : ℚ),
      posParse rates intervals row = some (rate, interval_h, notional) →
      posStep rates intervals acc row
        = ⟨acc.total_abs_notional + |notional|,
           acc.weighted_rate_hourly_sum + (rate / interval_h) * |notional|,
           acc.estimated_next_fee + notional * rate,
           acc.estimated_hourly_fee + (notional * rate) / interval_h⟩) ∧
    posDelta demoRates demoIntervals demoPosition = ⟨1000, 0.05, 0.4, 0.05⟩ := by
  refine ⟨?_, ?_, ?_⟩
  · intro rates intervals acc row h
    simp [posStep, posParse_skip rates intervals row h]
  · intro rates intervals acc row rate interval_h notional h
    simp [posStep, h]
  · have hparse : posParse demoRates demoIntervals demoPosition
        = some (0.0004, 8, 1000) := by
      simp [posParse, demoRates, demoIntervals, demoPosition]
      norm_num
    simp only [posDelta, posStep, hparse]
    norm_num [PosAcc.mk.injEq]

/-- Counterexample to C2 as stated: the scenario position contributes
exactly 0.05 to `estimated_hourly_fee` (namely `(10*100*0.0004)/8`), which
differs from the claimed 0.00005. -/
theorem position_scenario_counterexample :
    (posDelta demoRates demoIntervals demoPosition).estimated_hourly_fee = 0.05 ∧
    (0.05 : ℚ) ≠ 0.00005 := by
  constructor
  · have hparse : posParse demoRates demoIntervals demoPosition
        = some (0.0004, 8, 1000) := by
      simp [posParse, demoRates, demoIntervals, demoPosition]
      norm_num
    simp only [posDelta, posStep, hparse]
    norm_num
  · norm_num

/-- Witness for `position_contribution`: a zero-amount position leaves a
concrete accumulator unchanged, and the demo position adds its four
contribution terms to the zero accumulator. -/
theorem position_contribution_witness :
    posStep demoRates demoIntervals ⟨1, 2, 3, 4⟩ ⟨some 0, some 100, some "BTCUSDT"⟩
        = ⟨1, 2, 3, 4⟩ ∧
    posStep demoRates demoIntervals ⟨0, 0, 0, 0⟩ demoPosition
      = ⟨0 + |(1000 : ℚ)|, 0 + ((0.0004 : ℚ) / 8) * |(1000 : ℚ)|,
         0 + (1000 : ℚ) * 0.0004, 0 + ((1000 : ℚ) * 0.0004) / 8⟩ := by
  constructor
  · exact position_contribution.1 demoRates demoIntervals ⟨1, 2, 3, 4⟩
      ⟨some 0, some 100, some "BTCUSDT"⟩ (Or.inr (Or.inr (Or.inl rfl)))
  · exact position_contribution.2.1 demoRates demoIntervals ⟨0, 0, 0, 0⟩ demoPosition
      0.0004 8 1000 (by simp [posParse, demoRates, demoIntervals, demoPosition]; norm_num)

/-- C3: the collector's weighted_rate_per_hour is the weighted-rate numerator
over total_abs_notional when the latter is positive, exactly 0 when it is 0,
and in the positive case it lies in the convex hull (between a smallest and a
largest member) of the contributing per-instrument rate/interval_hours
values. -/
theorem weighted_rate_convex_hull :
    ∀ (rates : String → Option ℚ) (intervals : String → Option ℤ)
      (positions : List PosRow),
      ((collectExposure rates intervals positions).total_abs_notional = 0 →
        (collectExposure rates intervals positions).weighted_rate_per_hour = 0) ∧
      (0 < (collectExposure rates intervals positions).total_abs_notional →
        (collectExposure rates intervals positions).weighted_rate_per_hour
          = (posFold rates intervals positions).weighted_rate_hourly_sum
              / (posFold rates intervals positions).total_abs_notional ∧
        (∃ lo ∈ (contribPairs rates intervals positions).map Prod.fst,
            lo ≤ (collectExposure rates intervals positions).weighted_rate_per_hour) ∧
        (∃ hi ∈ (contribPairs rates intervals positions).map Prod.fst,
            (collectExposure rates intervals positions).weighted_rate_per_hour ≤ hi)) := by
  intro rates intervals positions
  have hct : (collectExposure rates intervals positions).total_abs_notional
      = (posFold rates intervals positions).total_abs_notional := rfl
  have htot : (posFold rates intervals positions).total_abs_notional
      = ((contribPairs rates intervals positions).map Prod.snd).sum := by
    simpa [posFold] using (posFold_sums rates intervals positions ⟨0, 0, 0, 0⟩).1
  have hws : (posFold rates intervals positions).weighted_rate_hourly_sum
      = ((contribPairs rates intervals positions).map (fun p => p.1 * p.2)).sum := by
    simpa [posFold] using (posFold_sums rates intervals positions ⟨0, 0, 0, 0⟩).2
  constructor
  · intro h0
    rw [hct] at h0
    simp [collectExposure, h0]
  · intro hpos
    rw [hct] at hpos
    have hwr : (collectExposure rates intervals positions).weighted_rate_per_hour
        = (posFold rates intervals positions).weighted_rate_hourly_sum
            / (posFold rates intervals positions).total_abs_notional := by
      simp [collectExposure, hpos]
    refine ⟨hwr, ?_⟩
    have hs : 0 < ((contribPairs rates intervals positions).map Prod.snd).sum :=
      htot ▸ hpos
    have hhull := wavg_mem_hull (contribPairs rates intervals positions)
      (fun p hp => (contribPairs_snd_pos rates intervals positions p hp).le) hs
    rw [hwr, hws, htot]
    exact hhull

/-- Witness for `weighted_rate_convex_hull`: the demo position gives positive
total notional, and the hull bounds hold there. -/
theorem weighted_rate_convex_hull_witness :
    0 < (collectExposure demoRates demoIntervals [demoPosition]).total_abs_notional ∧
    ∃ lo ∈ (contribPairs demoRates demoIntervals [demoPosition]).map Prod.fst,
      lo ≤ (collectExposure demoRates demoIntervals [demoPosition]).weighted_rate_per_hour := by
  have hparse : posParse demoRates demoIntervals demoPosition
      = some (0.0004, 8, 1000) := by
    simp [posParse, demoRates, demoIntervals, demoPosition]
    norm_num
  have hpos : 0 < (collectExposure demoRates demoIntervals [demoPosition]).total_abs_notional := by
    simp [collectExposure, posFold, posStep, hparse]
  exact ⟨hpos, ((weighted_rate_convex_hull demoRates demoIntervals [demoPosition]).2 hpos).2.1⟩

/-- C4 (spec-modelled): leverage is total_abs_notional / account_equity, and
is exactly 0 with no division error whenever account_equity ≤ 0, including
equity = 0. -/
theorem leverage_guarded :
    ∀ (rates : String → Option ℚ) (intervals : String → Option ℤ)
      (positions : List PosRow) (account_equity : ℚ),
      (account_equity ≤ 0 →
        leverage (collectExposure rates intervals positions).total_abs_notional
          account_equity = 0) ∧
      (0 < account_equity →
        leverage (collectExposure rates intervals positions).total_abs_notional
            account_equity
          = (collectExposure rates intervals positions).total_abs_notional
              / account_equity) ∧
      leverage (collectExposure rates intervals positions).total_abs_notional 0 = 0 := by
  intro rates intervals positions e
  refine ⟨fun h => ?_, fun h => ?_, ?_⟩
  · simp [leverage, h]
  · simp [leverage, not_le.mpr h]
  · simp [leverage]

/-- Witness for `leverage_guarded` at equity 0 and equity 2 for the demo
position. -/
theorem leverage_guarded_witness :
    leverage (collectExposure demoRates demoIntervals [demoPosition]).total_abs_notional
        0 = 0 ∧
    leverage (collectExposure demoRates demoIntervals [demoPosition]).total_abs_notional
        2
      = (collectExposure demoRates demoIntervals [demoPosition]).total_abs_notional / 2 := by
  exact ⟨(leverage_guarded demoRates demoIntervals [demoPosition] 0).1 le_rfl,
    (leverage_guarded demoRates demoIntervals [demoPosition] 2).2.1 (by norm_num)⟩

/-- Folding a page of identical zero-income rows at time `t` leaves the total
unchanged and maxes `t` into the cursor. -/
theorem pageFold_replicate (n : ℕ) (t : ℤ) (acc : ℚ × ℤ) :
    pageFold acc (List.replicate (n + 1) (some ((0 : ℚ), t))) = (acc.1, max acc.2 t) := by
  induction n generalizing acc with
  | zero => simp [pageFold]
  | succ m ih =>
    rw [List.replicate_succ]
    have hstep : pageFold acc (some ((0 : ℚ), t) :: List.replicate (m + 1) (some (0, t)))
        = pageFold (acc.1 + 0, max acc.2 t) (List.replicate (m + 1) (some (0, t))) := rfl
    rw [hstep, ih]
    simp [max_assoc]

/-- A whole pagination run finishes with a cursor no smaller than the initial
one. -/
theorem incomeLoop_cursor_le (oracle : ℤ → Option (List IncomeRow)) (end_ms : ℤ) :
    ∀ (page_start : ℤ) (total : ℚ) (callLog : List (ℤ × ℤ)) (rowsAcc : List IncomeRow),
      page_start ≤ (incomeLoop oracle end_ms page_start total callLog rowsAcc).cursor := by
  refine incomeLoop.induct oracle end_ms
    (fun page_start total callLog rowsAcc =>
      page_start ≤ (incomeLoop oracle end_ms page_start total callLog rowsAcc).cursor)
    ?_ ?_ ?_ ?_ ?_
  · intro page_start total callLog rowsAcc hlt hor
    rw [incomeLoop]; simp [hlt, hor]
  · intro page_start total callLog rowsAcc hlt hor
    rw [incomeLoop]; simp [hlt, hor]
  · intro page_start total callLog rowsAcc hlt data hor hne hlen
    rw [incomeLoop]; simp [hlt, hor, hne, hlen]
  · intro page_start total callLog rowsAcc hlt data hor hne
    intro p hlen ih
    have hunfold : incomeLoop oracle end_ms page_start total callLog rowsAcc
        = incomeLoop oracle end_ms ((pageFold (total, page_start) data).2 + 1)
            (pageFold (total, page_start) data).1
            (callLog ++ [(page_start, end_ms)]) (rowsAcc ++ data) := by
      rw [incomeLoop]; simp [hlt, hor, hne, hlen]
    rw [hunfold]
    have hp2 : page_start ≤ (pageFold (total, page_start) data).2 :=
      pageFold_snd_le data (total, page_start)
    have ih2 : (pageFold (total, page_start) data).2 + 1
        ≤ (incomeLoop oracle end_ms ((pageFold (total, page_start) data).2 + 1)
            (pageFold (total, page_start) data).1
            (callLog ++ [(page_start, end_ms)]) (rowsAcc ++ data)).cursor := ih
    exact le_trans (by linarith) ih2
  · intro page_start total callLog rowsAcc hge
    rw [incomeLoop]; simp [hge]

/-- Unfolding a two-page run: a full page at the cursor followed by a short
page stops after exactly two fetches, with the cursor one past the maximum of
the first page's times. -/
theorem incomeLoop_two_pages (p1 p2 : List IncomeRow) (end_ms c : ℤ)
    (h1 : p1.length = 1000) (h2ne : p2 ≠ []) (h2len : p2.length < 1000)
    (hc : c < end_ms) (hm : (pageFold (0, c) p1).2 + 1 < end_ms) :
    (incomeLoop (fun s => if s = c then some p1 else some p2) end_ms c 0 [] []).callLog
        = [(c, end_ms), ((pageFold (0, c) p1).2 + 1, end_ms)] ∧
    (incomeLoop (fun s => if s = c then some p1 else some p2) end_ms c 0 [] []).cursor
        = (pageFold (0, c) p1).2 + 1 := by
  have hne1 : p1 ≠ [] := by
    intro h
    rw [h] at h1
    simp at h1
  have hlen1 : ¬ p1.length < 1000 := by omega
  have hcur : c ≤ (pageFold (0, c) p1).2 := pageFold_snd_le p1 ((0 : ℚ), c)
  have hdiff : ¬ ((pageFold (0, c) p1).2 + 1 = c) := by omega
  have hstep1 : incomeLoop (fun s => if s = c then some p1 else some p2) end_ms c 0 [] []
      = incomeLoop (fun s => if s = c then some p1 else some p2) end_ms
          ((pageFold (0, c) p1).2 + 1) (pageFold (0, c) p1).1 [(c, end_ms)] p1 := by
    rw [incomeLoop]
    simp [hc, hne1, hlen1]
  rw [hstep1]
  constructor
  · rw [incomeLoop]; simp [hm, hdiff, h2ne, h2len]
  · rw [incomeLoop]; simp [hm, hdiff, h2ne, h2len]

/-- C1 (amended): `_signed_request` performs no clock resync and no retry:
every signed request is sent exactly once, stamped with the local clock time
(no drift offset) and the configured recvWindow, and the server's answer —
success or any error, timestamp rejection included — is returned to the
caller unchanged. -/
theorem signed_request_no_retry {α : Type} :
    ∀ (clockMs rw : ℤ) (path : String) (params : List (String × ℤ))
      (server : SignedCall → Except ServerError α),
      (signedRequest clockMs rw path params server).1
        = [⟨path, params, clockMs, rw⟩] ∧
      (signedRequest clockMs rw path params server).1.length = 1 ∧
      (signedRequest clockMs rw path params server).2
        = server ⟨path, params, clockMs, rw⟩ := by
  intro clockMs rw path params server
  exact ⟨rfl, rfl, rfl⟩

/-- Counterexample to C1 as stated: against a server that rejects every call
with a timestamp error, `_signed_request` issues exactly one call — not the
two calls that one resync plus one retry would produce — and the timestamp
rejection itself propagates to the caller. -/
theorem signed_request_counterexample :
    (signedRequest 1700000000000 5000 "/fapi/v1/income" [] rejectingServer).1.length = 1 ∧
    (signedRequest 1700000000000 5000 "/fapi/v1/income" [] rejectingServer).1.length ≠ 2 ∧
    (signedRequest 1700000000000 5000 "/fapi/v1/income" [] rejectingServer).2
      = Except.error ServerError.timestampRejected := by
  exact ⟨rfl, by simp [signedRequest], rfl⟩

/-- C5 (amended): income pages are fetched with fixed limit 1000, each call
using the requested end time unchanged and the current working cursor as its
start (the first page starts at the given cursor itself, not cursor+1);
after a full page of 1000 rows the cursor advances to
max(cursor, page event times)+1; fetching stops at a short page with the
cursor left at its pre-page value; so with a full first page and a short
second page exactly two fetch calls are issued and the final cursor is
max(page-1 times, start)+1. -/
theorem income_two_page_scenario (p1 p2 : List IncomeRow) (end_ms c : ℤ)
    (h1 : p1.length = 1000) (h2ne : p2 ≠ []) (h2len : p2.length < 1000)
    (hc : c < end_ms) (hm : (pageFold (0, c) p1).2 + 1 < end_ms) :
    (incomeLoop (fun s => if s = c then some p1 else some p2) end_ms c 0 [] []).callLog
        = [(c, end_ms), ((pageFold (0, c) p1).2 + 1, end_ms)] ∧
    (incomeLoop (fun s => if s = c then some p1 else some p2) end_ms c 0 [] []).cursor
        = (pageFold (0, c) p1).2 + 1 :=
  incomeLoop_two_pages p1 p2 end_ms c h1 h2ne h2len hc hm

/-- Counterexample to C5 as stated: with a full page (1000 rows, all at time
10) at cursor 0 and a short page (times 20, 21, 22) after it, the code
issues its first call at the cursor itself (0, not 0+1), both calls carry the
requested end time unchanged, and the final working cursor is
max(page-1 times)+1 = 11 — not max(page-2 times)+1 = 23 as the claim
states. -/
theorem income_pagination_counterexample :
    (incomeLoop demoIncomeOracle 1000000 0 0 [] []).callLog
        = [(0, 1000000), (11, 1000000)] ∧
    (incomeLoop demoIncomeOracle 1000000 0 0 [] []).cursor = 11 ∧
    (incomeLoop demoIncomeOracle 1000000 0 0 [] []).cursor ≠ 23 := by
  have hfold : pageFold (0, 0) demoPage1 = (0, 10) := by
    unfold demoPage1
    rw [show (1000 : ℕ) = 999 + 1 from by norm_num, pageFold_replicate]
    rfl
  have hlen1 : demoPage1.length = 1000 := by
    unfold demoPage1
    rw [List.length_replicate]
  have h := incomeLoop_two_pages demoPage1 demoPage2 1000000 0
    hlen1 (by simp [demoPage2]) (by simp [demoPage2])
    (by norm_num) (by rw [hfold]; norm_num)
  rw [hfold] at h
  norm_num at h
  have horacle : demoIncomeOracle
      = fun s => if s = 0 then some demoPage1 else some demoPage2 := rfl
  rw [horacle]
  refine ⟨h.1, h.2, ?_⟩
  rw [h.2]
  norm_num

/-- Witness for `income_two_page_scenario` at the concrete two-page oracle. -/
theorem income_two_page_scenario_witness :
    (incomeLoop (fun s => if s = 0 then some demoPage1 else some demoPage2)
        1000000 0 0 [] []).cursor = (pageFold (0, 0) demoPage1).2 + 1 := by
  have hfold : pageFold (0, 0) demoPage1 = (0, 10) := by
    unfold demoPage1
    rw [show (1000 : ℕ) = 999 + 1 from by norm_num, pageFold_replicate]
    rfl
  have hlen1 : demoPage1.length = 1000 := by
    unfold demoPage1
    rw [List.length_replicate]
  exact (income_two_page_scenario demoPage1 demoPage2 1000000 0 hlen1
    (by simp [demoPage2]) (by simp [demoPage2]) (by norm_num)
    (by rw [hfold]; norm_num)).2

/-- C6: the working cursor of the income pagination is monotonically
non-decreasing: a page fold only maxes event times into it, every run
finishes with a cursor at least its initial one, and a second run chained
from the first run's final cursor stays at or above the original cursor —
regardless of out-of-order or unparseable timestamps. -/
theorem income_cursor_monotone :
    (∀ (acc : ℚ × ℤ) (rows : List IncomeRow), acc.2 ≤ (pageFold acc rows).2) ∧
    (∀ (oracle : ℤ → Option (List IncomeRow)) (end_ms page_start : ℤ) (total : ℚ)
        (callLog : List (ℤ × ℤ)) (rowsAcc : List IncomeRow),
      page_start ≤ (incomeLoop oracle end_ms page_start total callLog rowsAcc).cursor) ∧
    (∀ (oracle1 oracle2 : ℤ → Option (List IncomeRow)) (end1 end2 c : ℤ),
      c ≤ (incomeLoop oracle2 end2
            (incomeLoop oracle1 end1 c 0 [] []).cursor 0 [] []).cursor) := by
  refine ⟨fun acc rows => pageFold_snd_le rows acc, ?_, ?_⟩
  · intro oracle end_ms page_start total callLog rowsAcc
    exact incomeLoop_cursor_le oracle end_ms page_start total callLog rowsAcc
  · intro oracle1 oracle2 end1 end2 c
    exact le_trans (incomeLoop_cursor_le oracle1 end1 c 0 [] [])
      (incomeLoop_cursor_le oracle2 end2 _ 0 [] [])

/-- C7: re-running reconciliation with an unchanged cursor when the server
reports no new events (an empty first page, a non-list response, or an
already-exhausted window) yields a zero net total, an unchanged cursor, a
zero `get_funding_income_sum`, and zero received/paid sums over the fetched
rows. -/
theorem reconcile_idempotent :
    ∀ (oracle : ℤ → Option (List IncomeRow)) (end_ms c : ℤ),
      oracle c = some [] ∨ oracle c = none ∨ end_ms ≤ c →
      (incomeLoop oracle end_ms c 0 [] []).total = 0 ∧
      (incomeLoop oracle end_ms c 0 [] []).cursor = c ∧
      getFundingIncomeSum oracle c end_ms = 0 ∧
      rpSums (incomeLoop oracle end_ms c 0 [] []).rowsFetched = (0, 0) := by
  intro oracle end_ms c h
  have hrun : (incomeLoop oracle end_ms c 0 [] []).total = 0 ∧
      (incomeLoop oracle end_ms c 0 [] []).cursor = c ∧
      (incomeLoop oracle end_ms c 0 [] []).rowsFetched = [] := by
    by_cases hlt : c < end_ms
    · rcases h with h | h | h
      · rw [incomeLoop]; simp [hlt, h]
      · rw [incomeLoop]; simp [hlt, h]
      · omega
    · rw [incomeLoop]; simp [hlt]
  refine ⟨hrun.1, hrun.2.1, ?_, ?_⟩
  · simp [getFundingIncomeSum, hrun.1]
  · rw [hrun.2.2]; rfl

/-- Witness for `reconcile_idempotent`: an oracle with no events at cursor 5
over the window ending at 1000. -/
theorem reconcile_idempotent_witness :
    (incomeLoop emptyOracle 1000 5 0 [] []).total = 0 ∧
    (incomeLoop emptyOracle 1000 5 0 [] []).cursor = 5 ∧
    getFundingIncomeSum emptyOracle 5 1000 = 0 := by
  have h := reconcile_idempotent emptyOracle 1000 5 (Or.inl rfl)
  exact ⟨h.1, h.2.1, h.2.2.1⟩

end FundingMonitor
